import Mathlib

/-!
Verification of the rename-and-propagate engine of `file-rename.py`.

The Python program clones repositories, finds filesystem entries whose base
name contains a configured substring, creates renamed sibling copies with the
substring replaced (propagating the replacement into copied file content), and
offers a fix mode that repairs stray occurrences of the old substring inside
already-renamed entries.

The shallow embedding below models:
  * the literal and case-insensitive substring containment / replace-all
    primitives used by the program (Python `in`, `str.replace`, and
    `re.sub` with an escaped pattern and `re.IGNORECASE`, restricted to
    ASCII case folding);
  * a repository working tree as a flat list of (path, node) pairs, where a
    path is the list of name components below the repository root and a node
    is a file (with a text-classification flag and content) or a directory;
  * the engine functions `find_items_with_pattern`, `replace_content_in_file`,
    `replace_content_in_directory`, `create_renamed_copy`, and the
    per-replacement processing loops of `process_repository` and
    `process_repository_fix_mode`;
  * `get_repo_name` / `construct_repo_url` and the run summary tally;
  * the error behaviour of `replace_content_in_file` over an abstract file
    environment with explicit failure points.
-/

set_option autoImplicit false

/-! ### String primitives -/

/-- Python substring containment `pat in s` on character lists:
true iff `pat` occurs contiguously in `s` (the empty pattern occurs
everywhere). -/
def containsL (pat : List Char) : List Char → Bool
  | [] => pat.isEmpty
  | c :: rest => pat.isPrefixOf (c :: rest) || containsL pat rest

/-- Generic scan-and-replace: at each position, if `pre` accepts the current
suffix, emit `repl` and skip `skip` further characters after the head;
otherwise keep the head character.  `fuel` bounds the recursion and is
instantiated with the string length (each step consumes at least one
character, so that much fuel is always enough). -/
def replaceAux (pre : List Char → Bool) (skip : Nat) (repl : List Char) : Nat → List Char → List Char
  | 0, s => s
  | _ + 1, [] => []
  | fuel + 1, c :: rest =>
    if pre (c :: rest) then repl ++ replaceAux pre skip repl fuel (rest.drop skip)
    else c :: replaceAux pre skip repl fuel rest

/-- Exact-prefix acceptor for the case-sensitive replace (`str.replace`). -/
def csPre (old_str : List Char) (s : List Char) : Bool :=
  old_str.isPrefixOf s

/-- Case-insensitive prefix acceptor for `re.compile(re.escape(old),
re.IGNORECASE).sub`: the next `old.length` characters match `old` up to ASCII
case. -/
def ciPre (old_str : List Char) (s : List Char) : Bool :=
  (s.take old_str.length).map Char.toLower == old_str.map Char.toLower

/-- Python `s.replace(old, new)`: leftmost non-overlapping literal
replace-all.  Python interleaves `new` when `old` is empty; the spec treats an
empty `old` as undefined input and no caller passes it, so that case is
modelled as the identity. -/
def pyReplaceL (old_str repl s : List Char) : List Char :=
  if old_str.isEmpty then s else replaceAux (csPre old_str) (old_str.length - 1) repl s.length s

/-- Python `re.sub` with escaped pattern and `re.IGNORECASE`: leftmost
non-overlapping case-insensitive replace-all, the replacement inserted
verbatim.  Empty `old` modelled as the identity as for `pyReplaceL`. -/
def ciReplaceL (old_str repl s : List Char) : List Char :=
  if old_str.isEmpty then s else replaceAux (ciPre old_str) (old_str.length - 1) repl s.length s

/-- ASCII lowercasing of a character list (Python `str.lower` on the ASCII
fragment the program manipulates). -/
def lowerL (s : List Char) : List Char :=
  s.map Char.toLower

/-- Python `pat in s` at `String` level. -/
def pyContains (s pat : String) : Bool :=
  containsL pat.data s.data

/-- Case-insensitive containment: `re.compile(re.escape(pat), re.IGNORECASE).search(s)`,
equivalently `pat.lower() in s.lower()`. -/
def ciContains (s pat : String) : Bool :=
  containsL (lowerL pat.data) (lowerL s.data)

/-- Python `s.lower()` at `String` level. -/
def lowerStr (s : String) : String :=
  ⟨lowerL s.data⟩

/-- Python `s.replace(old, new)` at `String` level. -/
def pyReplace (s old_str new_str : String) : String :=
  ⟨pyReplaceL old_str.data new_str.data s.data⟩

/-- Case-insensitive replace-all at `String` level. -/
def ciReplace (s old_str new_str : String) : String :=
  ⟨ciReplaceL old_str.data new_str.data s.data⟩

/-- The containment test under the active case rule (`file-rename.py`
lines 286-291 and 308-315). -/
def py_contains_pat (case_sensitive : Bool) (s pat : String) : Bool :=
  if case_sensitive then pyContains s pat else ciContains s pat

/-- The replace-all under the active case rule, used both by the name
transformation (lines 344-348) and the content substitution (lines 311
and 317). -/
def py_subst (case_sensitive : Bool) (s old_str new_str : String) : String :=
  if case_sensitive then pyReplace s old_str new_str else ciReplace s old_str new_str

/-! ### Filesystem model -/

/-- A filesystem node: a file carries the text-classification verdict of the
`file` command and its content; a directory carries nothing (its descendants
are separate entries). -/
inductive FNode where
  | file (is_text : Bool) (content : String)
  | dir
deriving DecidableEq

/-- A path below the repository root, as a list of name components. -/
abbrev FPath := List String

/-- A repository working tree: the entries below the root, each with its
path and node.  The list order stands in for the (deterministic) traversal
order of `Path.rglob`. -/
abbrev FS := List (FPath × FNode)

/-- Look up the node at a path (`Path.exists` / `Path.is_dir` oracle). -/
def lookupFS (fs : FS) (p : FPath) : Option FNode :=
  (fs.find? (fun e => e.1 == p)).map Prod.snd

/-- `find_items_with_pattern` (lines 274-293): every entry, file or
directory, whose base name contains `pat` under the active case rule,
excluding entries with a `.git` path component. -/
def find_items_with_pattern (case_sensitive : Bool) (fs : FS) (pat : String) : List FPath :=
  (fs.filter (fun e =>
    !(e.1.contains ".git") &&
      (if case_sensitive then pyContains (e.1.getLastD "") pat
       else pyContains (lowerStr (e.1.getLastD "")) (lowerStr pat)))).map Prod.fst

/-- The per-file effect of `replace_content_in_file` on a node: files
classified as text whose content contains `old_str` under the case rule get
the substitution; every other node is untouched. -/
def subst_file_node (case_sensitive : Bool) (old_str new_str : String) : FNode → FNode
  | FNode.dir => FNode.dir
  | FNode.file t c =>
    if t && py_contains_pat case_sensitive c old_str then
      FNode.file t (py_subst case_sensitive c old_str new_str)
    else FNode.file t c

/-- `replace_content_in_file` (lines 295-328), happy path: reports whether a
write occurred and the updated tree.  A write occurs exactly when the path
names a text file whose content contains `old_str` under the case rule. -/
def replace_content_in_file (case_sensitive : Bool) (old_str new_str : String) (fs : FS) (file_path : FPath) : Bool × FS :=
  let changed :=
    match lookupFS fs file_path with
    | some (FNode.file t c) => t && py_contains_pat case_sensitive c old_str
    | _ => false
  (changed,
    if changed then
      fs.map (fun e => if e.1 == file_path then (e.1, subst_file_node case_sensitive old_str new_str e.2) else e)
    else fs)

/-- `replace_content_in_directory` (lines 330-337): run the file-level
substitution over every file strictly below `dir_path` that has no `.git`
path component, counting the files actually changed. -/
def replace_content_in_directory (case_sensitive : Bool) (old_str new_str : String) (fs : FS) (dir_path : FPath) : Nat × FS :=
  let files := (fs.filter (fun e =>
    dir_path.isPrefixOf e.1 && !(e.1 == dir_path) &&
      (match e.2 with | FNode.file _ _ => true | FNode.dir => false) &&
      !(e.1.contains ".git"))).map Prod.fst
  files.foldl
    (fun acc p =>
      let r := replace_content_in_file case_sensitive old_str new_str acc.2 p
      (if r.1 then acc.1 + 1 else acc.1, r.2))
    (0, fs)

/-- `create_renamed_copy` (lines 339-382).  Transform the base name under the
case rule; skip (`false`) if the name is unchanged or the target sibling
already exists; in dry-run report `true` without touching the tree; otherwise
copy the subtree to the new sibling path, substituting content in the copied
files (with the `.git`-component skip of `replace_content_in_directory` when
the item is a directory), and append the copies to the tree. -/
def create_renamed_copy (case_sensitive : Bool) (fs : FS) (original_item : FPath) (old_str new_str : String) (dry_run : Bool) : Bool × FS :=
  let item_name := original_item.getLastD ""
  let new_name := py_subst case_sensitive item_name old_str new_str
  if new_name = item_name then (false, fs)
  else
    let new_item := original_item.dropLast ++ [new_name]
    if fs.any (fun e => e.1 == new_item) then (false, fs)
    else if dry_run then (true, fs)
    else
      let is_dir := match lookupFS fs original_item with | some FNode.dir => true | _ => false
      let added := (fs.filter (fun e => original_item.isPrefixOf e.1)).map
        (fun e =>
          let q := new_item ++ e.1.drop original_item.length
          (q, if is_dir && q.contains ".git" then e.2
              else subst_file_node case_sensitive old_str new_str e.2))
      (true, fs ++ added)

/-- The body of the per-replacement loop of `process_repository`
(lines 407-428): list the matching items once, then fold
`create_renamed_copy` over them against the evolving tree, counting the
copies reported created. -/
def process_repository_pair (case_sensitive : Bool) (fs : FS) (old_str new_str : String) (dry_run : Bool) : Nat × FS :=
  let matching_items := find_items_with_pattern case_sensitive fs old_str
  matching_items.foldl
    (fun acc item =>
      let r := create_renamed_copy case_sensitive acc.2 item old_str new_str dry_run
      (if r.1 then acc.1 + 1 else acc.1, r.2))
    (0, fs)

/-- `process_repository` (lines 404-431), the part after a successful clone:
the replacements are applied in configured order and the per-pair counts are
summed into `items_copied`. -/
def process_repository (case_sensitive : Bool) (fs : FS) (replacements : List (String × String)) (dry_run : Bool) : Nat × FS :=
  replacements.foldl
    (fun acc pr =>
      let r := process_repository_pair case_sensitive acc.2 pr.1 pr.2 dry_run
      (acc.1 + r.1, r.2))
    (0, fs)

/-- The body of the per-replacement loop of `process_repository_fix_mode`
(lines 464-510): match on the NEW pattern; a matching directory is counted
unconditionally in dry-run but only when some contained file changes
otherwise; a matching file is checked in dry-run by a case-sensitive
containment test on its raw content (no text classification), and otherwise
by `replace_content_in_file`. -/
def process_repository_fix_mode_pair (case_sensitive : Bool) (fs : FS) (old_str new_str : String) (dry_run : Bool) : Nat × FS :=
  let matching_items := find_items_with_pattern case_sensitive fs new_str
  matching_items.foldl
    (fun acc item =>
      match lookupFS acc.2 item with
      | some FNode.dir =>
        if dry_run then (acc.1 + 1, acc.2)
        else
          let r := replace_content_in_directory case_sensitive old_str new_str acc.2 item
          (if r.1 > 0 then acc.1 + 1 else acc.1, r.2)
      | some (FNode.file _ content) =>
        if dry_run then (if pyContains content old_str then acc.1 + 1 else acc.1, acc.2)
        else
          let r := replace_content_in_file case_sensitive old_str new_str acc.2 item
          (if r.1 then acc.1 + 1 else acc.1, r.2)
      | none => acc)
    (0, fs)

/-- `process_repository_fix_mode` (lines 461-513), the part after a
successful clone: per-pair fix counts summed into `items_fixed`. -/
def process_repository_fix_mode (case_sensitive : Bool) (fs : FS) (replacements : List (String × String)) (dry_run : Bool) : Nat × FS :=
  replacements.foldl
    (fun acc pr =>
      let r := process_repository_fix_mode_pair case_sensitive acc.2 pr.1 pr.2 dry_run
      (acc.1 + r.1, r.2))
    (0, fs)

/-! ### Repository names, URLs and the run summary -/

/-- The URL test shared by `construct_repo_url` and `get_repo_name`
(lines 120 and 142). -/
def is_url (s : String) : Bool :=
  "http://".data.isPrefixOf s.data || "https://".data.isPrefixOf s.data ||
    "git@".data.isPrefixOf s.data

/-- Python `s.rstrip(chars)`: remove every trailing character drawn from the
character SET `chars` (not a suffix match). -/
def rstripChars (chars : List Char) (s : List Char) : List Char :=
  (s.reverse.dropWhile (fun c => chars.contains c)).reverse

/-- Python `s.split(sep)` for a single-character separator. -/
def splitOnChar (sep : Char) : List Char → List (List Char)
  | [] => [[]]
  | a :: rest =>
    let r := splitOnChar sep rest
    if a = sep then [] :: r
    else
      match r with
      | [] => [[a]]
      | h :: t => (a :: h) :: t

/-- `get_repo_name` (lines 139-148).  For a URL input: strip trailing
slashes, take the last slash-separated component, and drop a literal `.git`
suffix.  For a short-name input: `repo_input.rstrip('.git')`, which strips
trailing characters from the set of `.`, `g`, `i`, `t`. -/
def get_repo_name (repo_input : String) : String :=
  if is_url repo_input then
    let nm := (splitOnChar '/' (rstripChars ['/'] repo_input.data)).getLastD []
    ⟨if "tig.".data.isPrefixOf nm.reverse then nm.take (nm.length - 4) else nm⟩
  else
    ⟨rstripChars ['.', 'g', 'i', 't'] repo_input.data⟩

/-- The configuration fields consumed by `construct_repo_url`. -/
structure GitConfig where
  git_base_url : String
  git_auth_method : String
  git_username : String
  git_auth_token : String

/-- `construct_repo_url` (lines 117-137).  URLs pass through; a short name is
first subjected to `rstrip('.git')` (again a character-set strip) and then
spliced into a URL according to the auth method. -/
def construct_repo_url (cfg : GitConfig) (repo_input : String) : String :=
  if is_url repo_input then repo_input
  else
    let repo_name : String := ⟨rstripChars ['.', 'g', 'i', 't'] repo_input.data⟩
    if cfg.git_auth_method = "token" then
      "https://" ++ cfg.git_username ++ ":" ++ cfg.git_auth_token ++ "@" ++
        pyReplace cfg.git_base_url "https://" "" ++ "/" ++ repo_name ++ ".git"
    else if cfg.git_auth_method = "ssh" then
      if pyContains cfg.git_base_url "github.com" then
        "git@github.com:" ++ ⟨(splitOnChar '/' cfg.git_base_url.data).getLastD []⟩ ++ "/" ++
          repo_name ++ ".git"
      else cfg.git_base_url ++ "/" ++ repo_name ++ ".git"
    else cfg.git_base_url ++ "/" ++ repo_name ++ ".git"

/-- The integer a repository contributes to the run summary (lines 392-394
and 639-646): `process_repository` returns `0` when the clone fails and the
item count otherwise. -/
def process_repository_result (clone_ok case_sensitive : Bool) (fs : FS) (replacements : List (String × String)) (dry_run : Bool) : Int :=
  if clone_ok then ((process_repository case_sensitive fs replacements dry_run).1 : Int) else 0

/-- The summary fold of `run` (lines 624-646): `total_repos` counts every
processed line, and `successful_repos` counts those whose returned item count
satisfies `items >= 0`. -/
def run_tally (results : List Int) : Nat × Nat :=
  results.foldl (fun acc items => (if items ≥ 0 then acc.1 + 1 else acc.1, acc.2 + 1)) (0, 0)

/-! ### Error behaviour of `replace_content_in_file` -/

/-- The observable file environment of one `replace_content_in_file` call:
the stdout of the `file` classifier (`none` means invoking it raised), the
result of reading the file (`none` means opening or reading raised, e.g. the
file does not exist or is unreadable), and whether opening for write and
writing succeed. -/
structure FileEnv where
  classify_result : Option String
  read_result : Option String
  write_ok : Bool

/-- `replace_content_in_file` (lines 295-328) over an explicit file
environment, with its `try`/`except Exception: return False` error handling:
every failure point yields `false`, the same value as the no-change
outcomes. -/
def replace_content_in_file_err (case_sensitive : Bool) (env : FileEnv) (old_str new_str : String) : Bool :=
  match env.classify_result with
  | none => false
  | some out =>
    if !pyContains (lowerStr out) "text" then false
    else
      match env.read_result with
      | none => false
      | some content =>
        if !py_contains_pat case_sensitive content old_str then false
        else if env.write_ok then true
        else false

/-! ### Helper lemmas -/

theorem foldl_snd_fixed {α β γ : Type} (f : β × γ → α → β × γ)
    (h : ∀ acc a, (f acc a).2 = acc.2) :
    ∀ (l : List α) (acc : β × γ), (l.foldl f acc).2 = acc.2 := by
  intro l
  induction l with
  | nil => intro acc; rfl
  | cons a l ih => intro acc; rw [List.foldl_cons, ih, h]

theorem create_renamed_copy_dry_fs (cs : Bool) (fs : FS) (p : FPath) (o n : String) :
    (create_renamed_copy cs fs p o n true).2 = fs := by
  unfold create_renamed_copy
  dsimp only
  split
  · rfl
  · split
    · rfl
    · rfl

theorem create_renamed_copy_decision (cs : Bool) (fs : FS) (p : FPath) (o n : String) :
    (create_renamed_copy cs fs p o n true).1 = (create_renamed_copy cs fs p o n false).1 := by
  unfold create_renamed_copy
  dsimp only
  by_cases h1 : py_subst cs (p.getLastD "") o n = p.getLastD ""
  · rw [if_pos h1, if_pos h1]
  · rw [if_neg h1, if_neg h1]
    by_cases h2 : (fs.any fun e => e.1 == p.dropLast ++ [py_subst cs (p.getLastD "") o n]) = true
    · rw [if_pos h2, if_pos h2]
    · rw [if_neg h2, if_neg h2]
      simp

theorem process_repository_pair_dry_fs (cs : Bool) (fs : FS) (o n : String) :
    (process_repository_pair cs fs o n true).2 = fs := by
  unfold process_repository_pair
  apply foldl_snd_fixed
  intro acc a
  exact create_renamed_copy_dry_fs cs acc.2 a o n

theorem process_repository_dry_fs (cs : Bool) (fs : FS) (repls : List (String × String)) :
    (process_repository cs fs repls true).2 = fs := by
  unfold process_repository
  apply foldl_snd_fixed
  intro acc pr
  exact process_repository_pair_dry_fs cs acc.2 pr.1 pr.2

theorem process_repository_fix_mode_pair_dry_fs (cs : Bool) (fs : FS) (o n : String) :
    (process_repository_fix_mode_pair cs fs o n true).2 = fs := by
  unfold process_repository_fix_mode_pair
  apply foldl_snd_fixed
  intro acc a
  cases h : lookupFS acc.2 a with
  | none => simp [h]
  | some nd =>
    cases nd with
    | dir => simp [h]
    | file t c => simp [h]

theorem process_repository_fix_mode_dry_fs (cs : Bool) (fs : FS) (repls : List (String × String)) :
    (process_repository_fix_mode cs fs repls true).2 = fs := by
  unfold process_repository_fix_mode
  apply foldl_snd_fixed
  intro acc pr
  exact process_repository_fix_mode_pair_dry_fs cs acc.2 pr.1 pr.2

/-- How one replacement pair of the fix engine may act on one entry: either
the entry is untouched, or its path is kept and the entry was a text file
whose content contained `old_str` under the active case rule. -/
def entry_step (case_sensitive : Bool) (old_str : String) (e e2 : FPath × FNode) : Prop :=
  e2 = e ∨
    (e2.1 = e.1 ∧ ∃ t c, e.2 = FNode.file t c ∧ t = true ∧ py_contains_pat case_sensitive c old_str = true)

theorem entry_step_trans (cs : Bool) (o : String) (a b c : FPath × FNode)
    (h1 : entry_step cs o a b) (h2 : entry_step cs o b c) : entry_step cs o a c := by
  rcases h1 with h1 | ⟨hp1, hf1⟩
  · subst h1; exact h2
  · rcases h2 with h2 | ⟨hp2, _⟩
    · subst h2; exact Or.inr ⟨hp1, hf1⟩
    · exact Or.inr ⟨hp2.trans hp1, hf1⟩

theorem forall2_entry_refl (cs : Bool) (o : String) (l : FS) :
    List.Forall₂ (entry_step cs o) l l :=
  List.forall₂_same.mpr (fun _ _ => Or.inl rfl)

theorem forall2_trans_of {α : Type} {R : α → α → Prop}
    (hR : ∀ a b c, R a b → R b c → R a c) :
    ∀ {l1 l2 l3 : List α}, List.Forall₂ R l1 l2 → List.Forall₂ R l2 l3 → List.Forall₂ R l1 l3 := by
  intro l1 l2 l3 h1 h2
  induction h1 generalizing l3 with
  | nil => cases h2; exact List.Forall₂.nil
  | cons hab _ ih =>
    cases h2 with
    | cons hbc h2t => exact List.Forall₂.cons (hR _ _ _ hab hbc) (ih h2t)

theorem forall2_map_of {α : Type} {R : α → α → Prop} (g : α → α)
    (h : ∀ e, R e (g e)) : ∀ l : List α, List.Forall₂ R l (l.map g) := by
  intro l
  induction l with
  | nil => exact List.Forall₂.nil
  | cons a l ih => exact List.Forall₂.cons (h a) ih

theorem replace_content_in_file_forall2 (cs : Bool) (o n : String) (fs : FS) (p : FPath) :
    List.Forall₂ (entry_step cs o) fs (replace_content_in_file cs o n fs p).2 := by
  unfold replace_content_in_file
  dsimp only
  split
  · apply forall2_map_of
    intro e
    obtain ⟨p1, nd⟩ := e
    by_cases hp : p1 == p
    · rw [if_pos hp]
      cases nd with
      | dir => exact Or.inl rfl
      | file t c =>
        dsimp only [subst_file_node]
        split
        · next hcond =>
          obtain ⟨ht, hc⟩ := Bool.and_eq_true_iff.mp hcond
          exact Or.inr ⟨rfl, t, c, rfl, ht, hc⟩
        · exact Or.inl rfl
    · rw [if_neg hp]
      exact Or.inl rfl
  · exact forall2_entry_refl cs o _

theorem foldl_forall2 {α : Type} {R : (FPath × FNode) → (FPath × FNode) → Prop}
    (hR : ∀ a b c, R a b → R b c → R a c)
    (f : Nat × FS → α → Nat × FS)
    (hf : ∀ acc a, List.Forall₂ R acc.2 (f acc a).2) :
    ∀ (l : List α) (acc : Nat × FS) (fs0 : FS),
      List.Forall₂ R fs0 acc.2 → List.Forall₂ R fs0 (l.foldl f acc).2 := by
  intro l
  induction l with
  | nil => intro acc fs0 h; exact h
  | cons a l ih =>
    intro acc fs0 h
    exact ih (f acc a) fs0 (forall2_trans_of hR h (hf acc a))

theorem replace_content_in_directory_forall2 (cs : Bool) (o n : String) (fs : FS) (p : FPath) :
    List.Forall₂ (entry_step cs o) fs (replace_content_in_directory cs o n fs p).2 := by
  unfold replace_content_in_directory
  apply foldl_forall2 (entry_step_trans cs o)
  · intro acc a
    exact replace_content_in_file_forall2 cs o n acc.2 a
  · exact forall2_entry_refl cs o fs

theorem process_repository_fix_mode_pair_forall2 (cs : Bool) (fs : FS) (o n : String) :
    List.Forall₂ (entry_step cs o) fs (process_repository_fix_mode_pair cs fs o n false).2 := by
  unfold process_repository_fix_mode_pair
  apply foldl_forall2 (entry_step_trans cs o)
  · intro acc a
    cases h : lookupFS acc.2 a with
    | none => simp only [h]; exact forall2_entry_refl cs o _
    | some nd =>
      cases nd with
      | dir =>
        simp only [h, if_neg]
        have := replace_content_in_directory_forall2 cs o n acc.2 a
        simpa using this
      | file t c =>
        simp only [h]
        have := replace_content_in_file_forall2 cs o n acc.2 a
        simpa using this
  · exact forall2_entry_refl cs o fs

/-- Path preservation: the relation retaining only that the path component is
unchanged. -/
def same_path (e e2 : FPath × FNode) : Prop := e2.1 = e.1

theorem entry_step_to_same_path (cs : Bool) (o : String) (a b : FPath × FNode)
    (h : entry_step cs o a b) : same_path a b := by
  rcases h with h | ⟨hp, _⟩
  · subst h; rfl
  · exact hp

theorem forall2_same_path_map_fst :
    ∀ {l l2 : FS}, List.Forall₂ same_path l l2 → l2.map Prod.fst = l.map Prod.fst := by
  intro l l2 h
  induction h with
  | nil => rfl
  | cons hab _ ih =>
    have hab2 : _ = _ := hab
    dsimp only [List.map_cons]
    rw [ih, hab2]

theorem process_repository_fix_mode_map_fst (cs : Bool) (fs : FS) (repls : List (String × String)) :
    ((process_repository_fix_mode cs fs repls false).2).map Prod.fst = fs.map Prod.fst := by
  apply forall2_same_path_map_fst
  unfold process_repository_fix_mode
  apply foldl_forall2 (R := same_path)
  · intro a b c h1 h2; exact h2.trans h1
  · intro acc pr
    exact (process_repository_fix_mode_pair_forall2 cs acc.2 pr.1 pr.2).imp
      (entry_step_to_same_path cs pr.1)
  · exact List.forall₂_same.mpr (fun _ _ => rfl)

theorem isPrefixOf_append_self {α : Type} [BEq α] [LawfulBEq α] (a b : List α) :
    a.isPrefixOf (a ++ b) = true := by
  induction a with
  | nil => simp [List.isPrefixOf]
  | cons x a ih => simp [List.isPrefixOf, ih]

theorem create_renamed_copy_extends (cs : Bool) (fs : FS) (p : FPath) (o n : String) (d : Bool) :
    ∃ added : FS,
      (create_renamed_copy cs fs p o n d).2 = fs ++ added ∧
      added.all (fun e => (p.dropLast ++ [py_subst cs (p.getLastD "") o n]).isPrefixOf e.1) = true := by
  unfold create_renamed_copy
  dsimp only
  split
  · exact ⟨[], by simp⟩
  · split
    · exact ⟨[], by simp⟩
    · split
      · exact ⟨[], by simp⟩
      · refine ⟨_, rfl, ?_⟩
        rw [List.all_eq_true]
        intro e he
        obtain ⟨e0, _, rfl⟩ := List.mem_map.1 he
        exact isPrefixOf_append_self _ _

theorem create_renamed_copy_target_exists (cs : Bool) (fs : FS) (p : FPath) (o n : String) (d : Bool)
    (h : (fs.any fun e => e.1 == p.dropLast ++ [py_subst cs (p.getLastD "") o n]) = true) :
    create_renamed_copy cs fs p o n d = (false, fs) := by
  unfold create_renamed_copy
  dsimp only
  by_cases h1 : py_subst cs (p.getLastD "") o n = p.getLastD ""
  · rw [if_pos h1]
  · rw [if_neg h1, if_pos h]

theorem create_renamed_copy_noop (cs : Bool) (fs : FS) (p : FPath) (o n : String) (d : Bool)
    (h : py_subst cs (p.getLastD "") o n = p.getLastD "") :
    create_renamed_copy cs fs p o n d = (false, fs) := by
  unfold create_renamed_copy
  dsimp only
  rw [if_pos h]

theorem foldl_create_noop (cs : Bool) (o n : String) (d : Bool) :
    ∀ (l : List FPath) (fs : FS) (k : Nat),
      (∀ q ∈ l, py_subst cs (q.getLastD "") o n = q.getLastD "") →
      l.foldl
        (fun acc item =>
          let r := create_renamed_copy cs acc.2 item o n d
          (if r.1 then acc.1 + 1 else acc.1, r.2))
        (k, fs) = (k, fs) := by
  intro l
  induction l with
  | nil => intro fs k _; rfl
  | cons q l ih =>
    intro fs k hall
    rw [List.foldl_cons]
    have hq := create_renamed_copy_noop cs fs q o n d (hall q (List.mem_cons_self q l))
    dsimp only
    rw [hq]
    exact ih fs k (fun x hx => hall x (List.mem_cons_of_mem q hx))

theorem replaceAux_fuel (pre : List Char → Bool) (skip : Nat) (repl : List Char) :
    ∀ (f1 : Nat) (s : List Char) (f2 : Nat), s.length ≤ f1 → s.length ≤ f2 →
      replaceAux pre skip repl f1 s = replaceAux pre skip repl f2 s := by
  intro f1
  induction f1 with
  | zero =>
    intro s f2 h1 _
    have hs : s = [] := List.eq_nil_of_length_eq_zero (Nat.le_zero.1 h1)
    subst hs
    cases f2 <;> rfl
  | succ f1 ih =>
    intro s f2 h1 h2
    cases s with
    | nil => cases f2 <;> rfl
    | cons c rest =>
      cases f2 with
      | zero => exact absurd h2 (by simp)
      | succ f2 =>
        have hr1 : rest.length ≤ f1 := Nat.le_of_succ_le_succ (by simpa using h1)
        have hr2 : rest.length ≤ f2 := Nat.le_of_succ_le_succ (by simpa using h2)
        simp only [replaceAux]
        by_cases hp : pre (c :: rest) = true
        · rw [if_pos hp, if_pos hp]
          congr 1
          exact ih _ _ ((rest.length_drop skip).le.trans ((Nat.sub_le _ _).trans hr1))
            ((rest.length_drop skip).le.trans ((Nat.sub_le _ _).trans hr2))
        · rw [if_neg hp, if_neg hp]
          congr 1
          exact ih _ _ hr1 hr2

theorem ciPre_ne_nil {old_str : List Char} (hne : old_str ≠ []) (s : List Char)
    (hpre : ciPre old_str s = true) : s ≠ [] := by
  intro hs
  subst hs
  simp only [ciPre, List.take_nil, List.map_nil, beq_iff_eq] at hpre
  exact hne (List.map_eq_nil_iff.1 hpre.symm)

theorem ciReplaceL_head_match (old_str repl : List Char) (s : List Char)
    (hne : old_str ≠ []) (hpre : ciPre old_str s = true) :
    ciReplaceL old_str repl s = repl ++ ciReplaceL old_str repl (s.drop old_str.length) := by
  cases s with
  | nil => exact absurd rfl (ciPre_ne_nil hne [] hpre)
  | cons c rest =>
    obtain ⟨k, hk⟩ : ∃ k, old_str.length = k + 1 := by
      cases old_str with
      | nil => exact absurd rfl hne
      | cons x xs => exact ⟨xs.length, rfl⟩
    have hemp : old_str.isEmpty = false := by
      cases old_str with
      | nil => exact absurd rfl hne
      | cons x xs => rfl
    have hd : (c :: rest).drop old_str.length = rest.drop (old_str.length - 1) := by
      rw [hk]
      simp [List.drop_succ_cons]
    unfold ciReplaceL
    simp only [hemp, Bool.false_eq_true, if_false, List.length_cons, replaceAux, if_pos hpre]
    rw [hd]
    congr 1
    exact replaceAux_fuel _ _ _ _ _ _
      ((rest.length_drop _).le.trans (Nat.sub_le _ _)) (le_refl _)

theorem all_head_dropWhile {α : Type} (q : α → Bool) (l : List α) :
    Option.all (fun c => !q c) ((l.dropWhile q).head?) = true := by
  induction l with
  | nil => rfl
  | cons a l ih =>
    rw [List.dropWhile_cons]
    split
    · exact ih
    · next h => simp [Option.all, Bool.not_eq_true] at h ⊢; exact h

/-! ### Claims -/

/-- C1, counterexample: a fix-mode repository holding a single empty
directory named `prod`, with the replacement pair `("dev", "prod")`.  The
matching directory is counted unconditionally in dry-run (would-fix count 1),
while the non-dry-run pass changes no file and counts 0, so the reported
dry-run count does not equal what a non-dry-run pass over the same input
produces. -/
theorem fix_mode_dry_run_count_mismatch :
    (process_repository_fix_mode true [(["prod"], FNode.dir)] [("dev", "prod")] true).1 = 1 ∧
    (process_repository_fix_mode true [(["prod"], FNode.dir)] [("dev", "prod")] false).1 = 0 ∧
    (process_repository_fix_mode true [(["prod"], FNode.dir)] [("dev", "prod")] true).1 ≠
      (process_repository_fix_mode true [(["prod"], FNode.dir)] [("dev", "prod")] false).1 :=
  ⟨by decide, by decide, by decide⟩

/-- C1 (amended): with dry-run enabled neither processing mode creates,
copies, or modifies any filesystem entry, and for each individual item on a
given tree state `create_renamed_copy`'s would-create decision equals the
decision of a non-dry-run call on the same state; the aggregate would-fix and
would-create counts of a whole pass, however, need not equal those of a
non-dry-run pass (fix-mode directories are counted unconditionally in
dry-run and fix-mode files are checked with a case-sensitive containment test
without the text classification). -/
theorem dry_run_purity :
    (∀ (cs : Bool) (fs : FS) (repls : List (String × String)),
        (process_repository cs fs repls true).2 = fs) ∧
    (∀ (cs : Bool) (fs : FS) (repls : List (String × String)),
        (process_repository_fix_mode cs fs repls true).2 = fs) ∧
    (∀ (cs : Bool) (fs : FS) (p : FPath) (o n : String),
        (create_renamed_copy cs fs p o n true).1 = (create_renamed_copy cs fs p o n false).1) :=
  ⟨process_repository_dry_fs, process_repository_fix_mode_dry_fs, create_renamed_copy_decision⟩

/-- C2: if a sibling entry already occupies the transformed name,
`create_renamed_copy` reports `false` and leaves the tree exactly as it was;
and on every input the copy engine only ever appends new entries to the tree,
so no pre-existing entry is overwritten. -/
theorem non_destructive_copy :
    ∀ (cs : Bool) (fs : FS) (p : FPath) (o n : String) (d : Bool),
      ((fs.any fun e => e.1 == p.dropLast ++ [py_subst cs (p.getLastD "") o n]) = true →
          create_renamed_copy cs fs p o n d = (false, fs)) ∧
      ∃ added : FS, (create_renamed_copy cs fs p o n d).2 = fs ++ added := by
  intro cs fs p o n d
  refine ⟨create_renamed_copy_target_exists cs fs p o n d, ?_⟩
  obtain ⟨added, h1, _⟩ := create_renamed_copy_extends cs fs p o n d
  exact ⟨added, h1⟩

theorem non_destructive_copy_witness :
    ((([(["dev"], FNode.file true "x"), (["prod"], FNode.file true "y")] : FS).any
        fun e => e.1 == (["dev"] : FPath).dropLast ++
          [py_subst true ((["dev"] : FPath).getLastD "") "dev" "prod"]) = true) ∧
    create_renamed_copy true [(["dev"], FNode.file true "x"), (["prod"], FNode.file true "y")]
        ["dev"] "dev" "prod" false
      = (false, [(["dev"], FNode.file true "x"), (["prod"], FNode.file true "y")]) :=
  ⟨by decide,
   (non_destructive_copy true [(["dev"], FNode.file true "x"), (["prod"], FNode.file true "y")]
      ["dev"] "dev" "prod" false).1 (by decide)⟩

/-- C3: the run summary counts a repository as successful whenever its item
count satisfies `items >= 0`; but every execution path of
`process_repository`, the clone-failure path included, returns a
non-negative integer (clone failure returns 0), so a clone-failed repository
is also counted as successful: the tally over a single clone-failed
repository is 1 successful of 1 total, contradicting the claimed exclusion. -/
theorem clone_failure_counted_successful :
    (∀ (clone_ok case_sensitive : Bool) (fs : FS) (replacements : List (String × String)) (dry_run : Bool),
        0 ≤ process_repository_result clone_ok case_sensitive fs replacements dry_run) ∧
    process_repository_result false true [] [("dev", "prod")] false = 0 ∧
    run_tally [process_repository_result false true [] [("dev", "prod")] false] = (1, 1) := by
  refine ⟨?_, by decide, by decide⟩
  intro co cs fs repls d
  unfold process_repository_result
  split
  · exact Int.natCast_nonneg _
  · exact le_refl 0

/-- C4: under case-insensitive substitution, whenever the text starts with
any case variant of the old substring, the output starts with the configured
replacement string inserted verbatim (not case-adapted), followed by the
substitution of the rest; in particular replacing `Dev` with `Prod` in
`DEV_CONFIG dev_value` yields `Prod_CONFIG Prod_value`, both at the raw
substitution level and through `replace_content_in_file`. -/
theorem case_insensitive_subst_verbatim :
    (∀ (s old_str new_str : String), old_str.data ≠ [] → ciPre old_str.data s.data = true →
        ciReplace s old_str new_str
          = new_str ++ ciReplace ⟨s.data.drop old_str.data.length⟩ old_str new_str) ∧
    ciReplace "DEV_CONFIG dev_value" "Dev" "Prod" = "Prod_CONFIG Prod_value" ∧
    replace_content_in_file false "Dev" "Prod"
        [(["config.txt"], FNode.file true "DEV_CONFIG dev_value")] ["config.txt"]
      = (true, [(["config.txt"], FNode.file true "Prod_CONFIG Prod_value")]) := by
  refine ⟨?_, by decide, by decide⟩
  intro s old_str new_str hne hpre
  have h := ciReplaceL_head_match old_str.data new_str.data s.data hne hpre
  show String.mk _ = String.mk _
  exact congrArg String.mk h

theorem case_insensitive_subst_verbatim_witness :
    ciPre "Dev".data "DEV x".data = true ∧
    ciReplace "DEV x" "Dev" "Prod"
      = "Prod" ++ ciReplace ⟨"DEV x".data.drop "Dev".data.length⟩ "Dev" "Prod" :=
  ⟨by decide,
   case_insensitive_subst_verbatim.1 "DEV x" "Dev" "Prod" (by decide) (by decide)⟩

/-- C5: a non-dry-run fix-mode pass creates, deletes, and renames nothing
(the list of entry paths is preserved exactly), and within one replacement
pair every entry is either left untouched or is a text file whose content
contained the old substring under the active case rule. -/
theorem fix_mode_scope :
    (∀ (cs : Bool) (fs : FS) (repls : List (String × String)),
        ((process_repository_fix_mode cs fs repls false).2).map Prod.fst = fs.map Prod.fst) ∧
    (∀ (cs : Bool) (fs : FS) (old_str new_str : String),
        List.Forall₂ (entry_step cs old_str) fs
          (process_repository_fix_mode_pair cs fs old_str new_str false).2) :=
  ⟨process_repository_fix_mode_map_fst,
   fun cs fs o n => process_repository_fix_mode_pair_forall2 cs fs o n⟩

/-- C6: in non-dry-run normal mode `create_renamed_copy` only appends
entries to the tree — every pre-existing entry, in particular the original
item and all files it contains, is byte-for-byte unchanged — and every
appended entry lives under the new sibling path, so the content substitution
touches the copy only. -/
theorem copy_mode_preserves_original :
    ∀ (cs : Bool) (fs : FS) (p : FPath) (o n : String),
      ∃ added : FS,
        (create_renamed_copy cs fs p o n false).2 = fs ++ added ∧
        added.all (fun e =>
          (p.dropLast ++ [py_subst cs (p.getLastD "") o n]).isPrefixOf e.1) = true :=
  fun cs fs p o n => create_renamed_copy_extends cs fs p o n false

/-- C7: when the path names a text file whose content does not contain the
old substring under the active case rule, `replace_content_in_file` performs
no write — the tree is returned unchanged — and reports `false`. -/
theorem no_needless_writes :
    ∀ (cs : Bool) (fs : FS) (file_path : FPath) (old_str new_str c : String),
      lookupFS fs file_path = some (FNode.file true c) →
      py_contains_pat cs c old_str = false →
      replace_content_in_file cs old_str new_str fs file_path = (false, fs) := by
  intro cs fs p o n c hl hc
  unfold replace_content_in_file
  dsimp only
  rw [hl]
  simp [hc]

theorem no_needless_writes_witness :
    (lookupFS [(["a.txt"], FNode.file true "hello")] ["a.txt"] = some (FNode.file true "hello") ∧
      py_contains_pat true "hello" "dev" = false) ∧
    replace_content_in_file true "dev" "prod" [(["a.txt"], FNode.file true "hello")] ["a.txt"]
      = (false, [(["a.txt"], FNode.file true "hello")]) :=
  ⟨⟨by decide, by decide⟩,
   no_needless_writes true [(["a.txt"], FNode.file true "hello")] ["a.txt"] "dev" "prod" "hello"
     (by decide) (by decide)⟩

/-- C8: if the name transformation under the active case rule leaves an
entry's base name unchanged, `create_renamed_copy` creates no copy and
returns `false`; consequently, when every matched item of a replacement pair
has an unchanged transformed name, the pair's created count is 0 and the
tree is untouched. -/
theorem noop_rename_skip :
    (∀ (cs : Bool) (fs : FS) (p : FPath) (o n : String) (d : Bool),
        py_subst cs (p.getLastD "") o n = p.getLastD "" →
        create_renamed_copy cs fs p o n d = (false, fs)) ∧
    (∀ (cs : Bool) (fs : FS) (o n : String) (d : Bool),
        (∀ q ∈ find_items_with_pattern cs fs o,
            py_subst cs (q.getLastD "") o n = q.getLastD "") →
        process_repository_pair cs fs o n d = (0, fs)) := by
  constructor
  · exact fun cs fs p o n d h => create_renamed_copy_noop cs fs p o n d h
  · intro cs fs o n d hall
    unfold process_repository_pair
    exact foldl_create_noop cs o n d _ fs 0 hall

theorem noop_rename_skip_witness :
    py_subst true ((["dev"] : FPath).getLastD "") "dev" "dev" = (["dev"] : FPath).getLastD "" ∧
    create_renamed_copy true [(["dev"], FNode.file true "x")] ["dev"] "dev" "dev" false
        = (false, [(["dev"], FNode.file true "x")]) ∧
    process_repository_pair true [(["dev"], FNode.file true "x")] "dev" "dev" false
        = (0, [(["dev"], FNode.file true "x")]) :=
  ⟨by decide,
   noop_rename_skip.1 true [(["dev"], FNode.file true "x")] ["dev"] "dev" "dev" false (by decide),
   noop_rename_skip.2 true [(["dev"], FNode.file true "x")] "dev" "dev" false (by decide)⟩

/-- C9: for a short-name input (no URL scheme), `get_repo_name` strips every
trailing character drawn from the set of `.`, `g`, `i`, `t` — the stripped
suffix consists only of such characters and the result ends in none of them
— and `construct_repo_url` splices that same stripped name into the URL; in
particular the input `audit` yields the repository name `aud`, different
from the input although it carries no `.git` suffix. -/
theorem repo_name_strips_char_set :
    (∀ s : String, is_url s = false →
        ∃ suf : List Char,
          s.data = (get_repo_name s).data ++ suf ∧
          suf.all (fun c => ['.', 'g', 'i', 't'].contains c) = true ∧
          Option.all (fun c => !(['.', 'g', 'i', 't'].contains c))
            ((get_repo_name s).data.getLast?) = true) ∧
    (∀ (s : String) (cfg : GitConfig), is_url s = false → cfg.git_auth_method = "none" →
        construct_repo_url cfg s = cfg.git_base_url ++ "/" ++ get_repo_name s ++ ".git") ∧
    get_repo_name "audit" = "aud" := by
  refine ⟨?_, ?_, by decide⟩
  · intro s h
    have hg : (get_repo_name s).data
        = ((s.data.reverse.dropWhile (fun c => (['.', 'g', 'i', 't'] : List Char).contains c)).reverse) := by
      unfold get_repo_name
      rw [if_neg (by simp [h])]
      rfl
    refine ⟨(s.data.reverse.takeWhile (fun c => (['.', 'g', 'i', 't'] : List Char).contains c)).reverse,
        ?_, ?_, ?_⟩
    · rw [hg]
      conv_lhs => rw [← s.data.reverse_reverse,
        ← List.takeWhile_append_dropWhile
          (p := fun c => (['.', 'g', 'i', 't'] : List Char).contains c) (l := s.data.reverse)]
      rw [List.reverse_append]
    · rw [List.all_eq_true]
      intro c hc
      rw [List.mem_reverse] at hc
      exact List.mem_takeWhile_imp hc
    · rw [hg, List.getLast?_reverse]
      exact all_head_dropWhile _ _
  · intro s cfg h hm
    unfold construct_repo_url
    rw [if_neg (by simp [h])]
    dsimp only
    rw [hm]
    rw [if_neg (by decide), if_neg (by decide)]
    unfold get_repo_name
    rw [if_neg (by simp [h])]

theorem repo_name_strips_char_set_witness :
    is_url "audit" = false ∧
    construct_repo_url ⟨"https://git.example.com", "none", "", ""⟩ "audit"
      = "https://git.example.com" ++ "/" ++ get_repo_name "audit" ++ ".git" ∧
    get_repo_name "audit" = "aud" :=
  ⟨by decide,
   repo_name_strips_char_set.2.1 "audit" ⟨"https://git.example.com", "none", "", ""⟩
     (by decide) (by decide),
   repo_name_strips_char_set.2.2⟩

/-- C10: `replace_content_in_file` swallows every error: whenever invoking
the classifier raises, reading the file raises (nonexistent or unreadable
file), or writing fails, the function returns `false` — the same value as
the no-change outcomes, so a per-file failure is indistinguishable from "no
change needed" to the caller. -/
theorem replace_content_swallows_errors :
    ∀ (cs : Bool) (env : FileEnv) (old_str new_str : String),
      env.classify_result = none ∨ env.read_result = none ∨ env.write_ok = false →
      replace_content_in_file_err cs env old_str new_str = false := by
  intro cs env o n h
  obtain ⟨cr, rr, w⟩ := env
  unfold replace_content_in_file_err
  rcases h with h | h | h
  · simp only at h
    subst h
    rfl
  · simp only at h
    subst h
    cases cr with
    | none => rfl
    | some out =>
      dsimp only
      split
      · rfl
      · rfl
  · simp only at h
    subst h
    cases cr with
    | none => rfl
    | some out =>
      dsimp only
      split
      · rfl
      · cases rr with
        | none => rfl
        | some content =>
          dsimp only
          split
          · rfl
          · rfl

theorem replace_content_swallows_errors_witness :
    ((FileEnv.mk (some "ASCII text") (some "dev here") false).classify_result = none ∨
      (FileEnv.mk (some "ASCII text") (some "dev here") false).read_result = none ∨
      (FileEnv.mk (some "ASCII text") (some "dev here") false).write_ok = false) ∧
    replace_content_in_file_err true (FileEnv.mk (some "ASCII text") (some "dev here") false)
        "dev" "prod" = false :=
  ⟨Or.inr (Or.inr rfl),
   replace_content_swallows_errors true (FileEnv.mk (some "ASCII text") (some "dev here") false)
     "dev" "prod" (Or.inr (Or.inr rfl))⟩
